import Mathlib

/-
  Verification of the opposed-color highlight reconstruction engine
  (src/iop/opposed.c) against its specification.

  The embedding below translates the two CPU entry points
  `_process_opposed` (mosaic variant) and `_process_linear_opposed`
  (sraw variant), together with their helpers `_raw_to_cmap` and
  `_mask_dilated`, into pure Lean functions over exact rationals.

  Pieces of the engine that are referenced by opposed.c but whose code is
  not among the provided source files (the sensor pattern oracle
  FC/FCxtrans, the reference-average `_calc_refavg`, the tag `_color_magic`,
  the comparator `feqf`, `powf`/`HL_POWERF`, `dt_round_size`, and the
  booleans supplied by the pipeline such as `dt_image_altered`) are taken
  as parameters of the model or modelled from the spec, as indicated at
  each definition.
-/

namespace Opposed

/-- Modelled from the spec: `feqf` is not among the provided sources; the
spec says the validity tag is compared by near-equality with tolerance
1e-6. -/
def feq (a b : ℚ) : Bool := decide (|a - b| ≤ 1/1000000)

/-- A C `(int)` cast of a rational value truncates toward zero; `Int.div`
is exactly truncated division. -/
def ratTrunc (q : ℚ) : ℤ := Int.tdiv q.num (q.den : ℤ)

/-- `_raw_to_cmap` from the source: coarse-cell flat index of a photosite. -/
def raw_to_cmap (width row col : ℕ) : ℕ := (row / 3) * width + col / 3

/-- `_mask_dilated` from the source.  The three early returns become a
disjunction; mask bytes only ever hold 0 or 1, so `char` bit-or is Bool or.
The pointer offsets of the C code become explicit integer offsets on a
flat coarse plane of row stride `w1`. -/
def mask_dilated (inp : ℤ → Bool) (w1 : ℤ) : Bool :=
  inp 0 ||
  (inp (-w1 - 1) || inp (-w1) || inp (-w1 + 1) || inp (-1) || inp 1 ||
   inp (w1 - 1) || inp w1 || inp (w1 + 1)) ||
  (inp (-(3*w1) - 2) || inp (-(3*w1) - 1) || inp (-(3*w1)) || inp (-(3*w1) + 1) || inp (-(3*w1) + 2) ||
   inp (-(2*w1) - 3) || inp (-(2*w1) - 2) || inp (-(2*w1) - 1) || inp (-(2*w1)) || inp (-(2*w1) + 1) || inp (-(2*w1) + 2) || inp (-(2*w1) + 3) ||
   inp (-w1 - 3) || inp (-w1 - 2) || inp (-w1 + 2) || inp (-w1 + 3) ||
   inp (-3) || inp (-2) || inp 2 || inp 3 ||
   inp (w1 - 3) || inp (w1 - 2) || inp (w1 + 2) || inp (w1 + 3) ||
   inp (2*w1 - 3) || inp (2*w1 - 2) || inp (2*w1 - 1) || inp (2*w1) || inp (2*w1 + 1) || inp (2*w1 + 2) || inp (2*w1 + 3) ||
   inp (3*w1 - 2) || inp (3*w1 - 1) || inp (3*w1) || inp (3*w1 + 1) || inp (3*w1 + 2))

/-- The 44 flat offsets read by `mask_dilated` besides the centre, in
source order. -/
def offList (w1 : ℤ) : List ℤ :=
  [-w1 - 1, -w1, -w1 + 1, -1, 1, w1 - 1, w1, w1 + 1,
   -(3*w1) - 2, -(3*w1) - 1, -(3*w1), -(3*w1) + 1, -(3*w1) + 2,
   -(2*w1) - 3, -(2*w1) - 2, -(2*w1) - 1, -(2*w1), -(2*w1) + 1, -(2*w1) + 2, -(2*w1) + 3,
   -w1 - 3, -w1 - 2, -w1 + 2, -w1 + 3,
   -3, -2, 2, 3,
   w1 - 3, w1 - 2, w1 + 2, w1 + 3,
   2*w1 - 3, 2*w1 - 2, 2*w1 - 1, 2*w1, 2*w1 + 1, 2*w1 + 2, 2*w1 + 3,
   3*w1 - 2, 3*w1 - 1, 3*w1, 3*w1 + 1, 3*w1 + 2]

/-- The same 44 offsets as 2-D coarse-cell offsets (delta-row, delta-col),
in source order: the 8-neighborhood followed by the radius-2/3 ring. -/
def fp44 : List (ℤ × ℤ) :=
  [(-1, -1), (-1, 0), (-1, 1), (0, -1), (0, 1), (1, -1), (1, 0), (1, 1),
   (-3, -2), (-3, -1), (-3, 0), (-3, 1), (-3, 2),
   (-2, -3), (-2, -2), (-2, -1), (-2, 0), (-2, 1), (-2, 2), (-2, 3),
   (-1, -3), (-1, -2), (-1, 2), (-1, 3),
   (0, -3), (0, -2), (0, 2), (0, 3),
   (1, -3), (1, -2), (1, 2), (1, 3),
   (2, -3), (2, -2), (2, -1), (2, 0), (2, 1), (2, 2), (2, 3),
   (3, -2), (3, -1), (3, 0), (3, 1), (3, 2)]

/-- The footprint as the spec describes it: the 8-neighborhood together
with every offset of maximal coordinate 2 or 3 except the four extreme
corners. -/
def specFootprint (a b : ℤ) : Prop :=
  (|a| ≤ 1 ∧ |b| ≤ 1 ∧ ¬(a = 0 ∧ b = 0)) ∨
  (|a| ≤ 3 ∧ |b| ≤ 3 ∧ (max |a| |b| = 2 ∨ max |a| |b| = 3) ∧ ¬(|a| = 3 ∧ |b| = 3))

instance (a b : ℤ) : Decidable (specFootprint a b) := by
  unfold specFootprint
  infer_instance

/-- One pass of the dilation loop, as a function from the input coarse
plane to the output coarse plane.  The loop of the source runs over
`3 <= row < mheight-3`, `3 <= col < mwidth-3` and writes
`_mask_dilated` of the input plane there; every other cell of the output
plane keeps its initial (calloc) value 0.  The guard is stated on the
row/column recovered from the flat index. -/
def dilatePass (p : ℤ → Bool) (mw mh : ℕ) : ℤ → Bool := fun m =>
  if 0 ≤ m ∧ 3 ≤ m.toNat / mw ∧ m.toNat / mw + 3 < mh ∧ 3 ≤ m.toNat % mw ∧ m.toNat % mw + 3 < mw
  then mask_dilated (fun d => p (m + d)) (mw : ℤ)
  else false

/-- 64-bit unsigned (size_t) subtraction, used by the dilation loop bounds
`mheight - 3` and `mwidth - 3` of the source. -/
def size_sub (x y : ℕ) : ℕ := (x + 2^64 - y) % 2^64

/-- Modelled from the spec: `dt_round_size` is not among the provided
sources; the spec says the coarse mask element count is rounded up to the
next 64-aligned count. -/
def dt_round_size (size alignment : ℕ) : ℕ := ((size + alignment - 1) / alignment) * alignment

/-- The per-plane mask allocation size `msize` of the source. -/
def msizeOf (w h : ℕ) : ℕ := dt_round_size ((w/3 + 1) * (h/3 + 1)) 64

/-- The chrominance state `d->chroma_correction`: three chromatic offsets
and the validity tag. -/
structure ChromState where
  chroma : Fin 3 → ℚ
  tag : ℚ

/-- The list of interior photosites walked by the mask-build and the
chrominance-accumulation passes: `1 <= row < height-1`,
`1 <= col < width-1`. -/
def interiorList (w h : ℕ) : List (ℕ × ℕ) :=
  (List.range' 1 (h - 2)).flatMap fun r => (List.range' 1 (w - 2)).map fun c => (r, c)

/-! ### The mosaic variant `_process_opposed` -/

/-- Inputs of `_process_opposed`.  `fc` is the sensor pattern oracle
(modelled from the spec: FC/FCxtrans are not among the provided sources;
an arbitrary resolver from photosite position to primary).  `refavg` is
`_calc_refavg` (modelled from the spec: not among the provided sources;
an arbitrary reference-average of the flat photosite index and primary).
`magic` is the recomputed `_color_magic(piece)` value, `stored`/`storedTag`
are `d->chroma_correction[0..3]` on entry, `quality` and `allocOk` say
whether the scratch mask is requested and whether its allocation succeeds,
`keep` says whether the temporary output buffer is requested and allocated,
and `pipeFull`/`altered` are `pipe->type == DT_DEV_PIXELPIPE_FULL` and
`dt_image_altered`. -/
structure MosaicIn where
  w : ℕ
  h : ℕ
  ow : ℕ
  oh : ℕ
  ox : ℕ
  oy : ℕ
  input : ℕ → ℚ
  fc : ℕ → ℕ → Fin 3
  refavg : ℕ → Fin 3 → ℚ
  dclip : ℚ
  wbon : Bool
  coeffs : Fin 3 → ℚ
  magic : ℚ
  stored : Fin 3 → ℚ
  storedTag : ℚ
  quality : Bool
  allocOk : Bool
  keep : Bool
  pipeFull : Bool
  altered : Bool

/-- Per-primary clipping thresholds: `clips[c] = 0.987 * d->clip * icoeffs[c]`. -/
def clipsM (a : MosaicIn) : Fin 3 → ℚ := fun c =>
  987/1000 * a.dclip * (if a.wbon then a.coeffs c else 1)

/-- Per-primary dark thresholds: `clipdark = {0.03, 0.125, 0.03} * clips`. -/
def darkM (a : MosaicIn) : Fin 3 → ℚ := fun c =>
  (![3/100, 1/8, 3/100] : Fin 3 → ℚ) c * clipsM a c

/-- The mask-build test of the mosaic variant:
`fmaxf(0, input[idx]) >= clips[color]`. -/
def mosaicClipped (a : MosaicIn) (row col : ℕ) : Bool :=
  decide (clipsM a (a.fc row col) ≤ max 0 (a.input (row * a.w + col)))

/-- The raw clipping mask plane of one primary, as written by the
mask-build pass (racy writes all store 1, so the result is the union). -/
def rawPlaneM (a : MosaicIn) (ch : Fin 3) : ℤ → Bool := fun m =>
  (interiorList a.w a.h).any fun p =>
    (a.fc p.1 p.2 == ch) && mosaicClipped a p.1 p.2 &&
    ((raw_to_cmap (a.w/3) p.1 p.2 : ℤ) == m)

/-- The `anyclipped` flag of the mosaic variant. -/
def anyclippedM (a : MosaicIn) : Bool :=
  (interiorList a.w a.h).any fun p => mosaicClipped a p.1 p.2

/-- The dilated mask plane of one primary (planes 3..5 of the block). -/
def dilatedPlaneM (a : MosaicIn) (ch : Fin 3) : ℤ → Bool :=
  dilatePass (rawPlaneM a ch) (a.w/3) (a.h/3)

/-- One step of the chrominance accumulation of the mosaic variant,
processing photosite `p` (interior row/col).  Mirrors the loop body:
the sample is accumulated iff `inval < clips[color]`,
`inval > clipdark[color]` and the dilated plane of `color` is set at the
coarse cell of `p`. -/
def accumStepM (a : MosaicIn) (s : (Fin 3 → ℚ) × (Fin 3 → ℕ)) (p : ℕ × ℕ) :
    (Fin 3 → ℚ) × (Fin 3 → ℕ) :=
  let idx := p.1 * a.w + p.2
  let color := a.fc p.1 p.2
  let inval : ℚ := max 0 (a.input idx)
  if (decide (inval < clipsM a color) && decide (darkM a color < inval) &&
      dilatedPlaneM a color ((raw_to_cmap (a.w/3) p.1 p.2 : ℤ))) = true
  then (Function.update s.1 color (s.1 color + (inval - a.refavg idx color)),
        Function.update s.2 color (s.2 color + 1))
  else s

/-- The chrominance estimate of the mosaic variant:
`chrominance[c] = cr_sum[c] / fmaxf(1, cr_cnt[c])`. -/
def estChromM (a : MosaicIn) : Fin 3 → ℚ :=
  let r := (interiorList a.w a.h).foldl (accumStepM a) (fun _ => 0, fun _ => 0)
  fun c => r.1 c / max 1 ((r.2 c : ℚ))

/-- Whether the estimation block runs: the recomputed tag differs from the
stored tag, quality mode is on, and the scratch mask allocation succeeded
(`mask` non-NULL). -/
def runEstimM (a : MosaicIn) : Bool := !feq a.magic a.storedTag && a.quality && a.allocOk

/-- The chrominance triple the reconstruction uses: freshly estimated when
the estimation block ran and something was clipped, the stored triple
otherwise. -/
def chromUsedM (a : MosaicIn) : Fin 3 → ℚ :=
  if runEstimM a then (if anyclippedM a then estChromM a else a.stored) else a.stored

/-- Whether the publication block runs (inside the estimation block):
full pipe and image altered. -/
def publishedM (a : MosaicIn) : Bool := runEstimM a && a.pipeFull && a.altered

/-- `d->chroma_correction` (and the identical copy in `self->params`)
after the call. -/
def stateM (a : MosaicIn) : ChromState :=
  if publishedM a then ⟨chromUsedM a, a.magic⟩ else ⟨a.stored, a.storedTag⟩

/-- The temporary full-input reconstruction buffer of keep mode (`tmpout`),
as a function of the flat input index. -/
def tmpoutM (a : MosaicIn) (chrom : Fin 3 → ℚ) : ℕ → ℚ := fun idx =>
  let row := idx / a.w
  let col := idx % a.w
  let color := a.fc row col
  let inval : ℚ := max 0 (a.input idx)
  if clipsM a color ≤ inval ∧ 0 < col ∧ col < a.w - 1 ∧ 0 < row ∧ row < a.h - 1
  then max inval (a.refavg idx color + chrom color)
  else inval

/-- The `tmpout` pointer: present exactly in keep mode. -/
def tmpOptM (a : MosaicIn) : Option (ℕ → ℚ) :=
  if a.keep then some (tmpoutM a (chromUsedM a)) else none

/-- The body of the output loop of `_process_opposed` at output photosite
(row, col): map to input photosite `(row + roi_out->y, col + roi_out->x)`,
emit 0 outside the input region, copy from `tmpout` in keep mode, and
otherwise reconstruct clipped interior photosites. -/
def reconM (a : MosaicIn) (chrom : Fin 3 → ℚ) (tmp : Option (ℕ → ℚ)) (row col : ℕ) : ℚ :=
  let irow := row + a.oy
  let icol := col + a.ox
  if irow < a.h ∧ icol < a.w then
    let ix := irow * a.w + icol
    tmp.elim
      (let color := a.fc irow icol
       let oval : ℚ := max 0 (a.input ix)
       if (0 < irow ∧ 0 < icol ∧ irow < a.h - 1 ∧ icol < a.w - 1) ∧ clipsM a color ≤ oval
       then max oval (a.refavg ix color + chrom color)
       else oval)
      (fun t => t ix)
  else 0

/-- Everything `_process_opposed` produces: the output frame, the optional
temporary buffer, the chrominance actually used, the chrominance state
after the call, and flags recording whether publication and the estimation
passes happened. -/
structure MosaicResult where
  out : ℕ → ℕ → ℚ
  tmp : Option (ℕ → ℚ)
  chromaUsed : Fin 3 → ℚ
  stateOut : ChromState
  published : Bool
  ranPasses : Bool

/-- `_process_opposed` from the source, assembled from the passes above. -/
def process_opposed (a : MosaicIn) : MosaicResult :=
  ⟨reconM a (chromUsedM a) (tmpOptM a), tmpOptM a, chromUsedM a, stateM a,
   publishedM a, runEstimM a⟩

/-! ### The sraw variant `_process_linear_opposed` -/

/-- Inputs of `_process_linear_opposed`.  The frame is 4 floats per
photosite (`input` is flat with stride 4).  `pw` models `powf` and `hlp`
models `HL_POWERF` (modelled from the spec: `HL_POWERF` is not among the
provided sources, so the perceptual power transform is an arbitrary
parameter).  `scale` is `roi_out->scale` and `bufW`/`bufH` are
`piece->buf_in.width/height`, used only by the publication condition.
`ox`/`oy` are `roi_out->x`/`roi_out->y`; the source of the sraw variant
never reads them. -/
structure SrawIn where
  w : ℕ
  h : ℕ
  ow : ℕ
  oh : ℕ
  ox : ℕ
  oy : ℕ
  scale : ℚ
  bufW : ℤ
  bufH : ℤ
  input : ℕ → ℚ
  pw : ℚ → ℚ → ℚ
  hlp : ℚ
  dclip : ℚ
  wbon : Bool
  coeffs : Fin 3 → ℚ
  magic : ℚ
  stored : Fin 3 → ℚ
  storedTag : ℚ
  quality : Bool
  allocOk : Bool
  pipeFull : Bool
  altered : Bool

/-- The 4-wide clipping thresholds of the sraw variant: the aligned-pixel
initializer lists three values, so `clips[3] = 0`. -/
def clips4 (a : SrawIn) : Fin 4 → ℚ :=
  ![987/1000 * a.dclip * (if a.wbon then a.coeffs 0 else 1),
    987/1000 * a.dclip * (if a.wbon then a.coeffs 1 else 1),
    987/1000 * a.dclip * (if a.wbon then a.coeffs 2 else 1), 0]

/-- The 4-wide dark thresholds of the sraw variant; `clipdark[3] = 0`. -/
def dark4 (a : SrawIn) : Fin 4 → ℚ :=
  ![3/100 * clips4 a 0, 1/8 * clips4 a 1, 3/100 * clips4 a 2, 0]

/-- `_calc_linear_refavg` from the source, with `powf` and `HL_POWERF`
as parameters `pw` and `hlp`. -/
def calc_linear_refavg (pw : ℚ → ℚ → ℚ) (hlp : ℚ) (i0 i1 i2 : ℚ) (color : Fin 4) : ℚ :=
  let ins : Fin 4 → ℚ :=
    ![pw (max 0 i0) (1/hlp), pw (max 0 i1) (1/hlp), pw (max 0 i2) (1/hlp), 0]
  let opp : Fin 4 → ℚ :=
    ![1/2 * (ins 1 + ins 2), 1/2 * (ins 0 + ins 2), 1/2 * (ins 0 + ins 1), 0]
  pw (opp color) hlp

/-- The mask-build test of the sraw variant for one of the four channels:
`input[idx+c] >= clips[c]` (note: no clamp, and the `for_each_channel`
loop of the source really runs over all four channels). -/
def srawChTrigger (a : SrawIn) (row col : ℕ) (c : Fin 4) : Bool :=
  decide (clips4 a c ≤ a.input ((row * a.w + col) * 4 + (c : ℕ)))

/-- The content the build pass leaves in plane `c` of the mask block.
The channel loop runs over `c = 0..3`, so it also writes into plane 3 —
the plane the dilation pass later uses as the output plane of primary 0. -/
def rawPlaneS (a : SrawIn) (c : Fin 4) : ℤ → Bool := fun m =>
  (interiorList a.w a.h).any fun p =>
    srawChTrigger a p.1 p.2 c && ((raw_to_cmap (a.w/3) p.1 p.2 : ℤ) == m)

/-- The `anyclipped` flag of the sraw variant (any of the four channels). -/
def anyclippedS (a : SrawIn) : Bool :=
  (interiorList a.w a.h).any fun p =>
    (List.finRange 4).any fun c => srawChTrigger a p.1 p.2 c

/-- Embed a primary index into the 4-channel index space. -/
def embed3 (j : Fin 3) : Fin 4 := ⟨j.1, by omega⟩

/-- The content of plane `j + 3` of the mask block after the dilation
pass, which is what the accumulation pass reads for primary `j`: the
dilated plane on the cells the dilation loop writes, and the value the
build pass left there everywhere else.  For `j = 0` that residue is the
channel-3 writes of the build pass; planes 4 and 5 start out zero. -/
def postPlaneS (a : SrawIn) (j : Fin 3) : ℤ → Bool := fun m =>
  if 0 ≤ m ∧ 3 ≤ m.toNat / (a.w/3) ∧ m.toNat / (a.w/3) + 3 < a.h/3 ∧
     3 ≤ m.toNat % (a.w/3) ∧ m.toNat % (a.w/3) + 3 < a.w/3
  then dilatePass (rawPlaneS a (embed3 j)) (a.w/3) (a.h/3) m
  else (if j = 0 then rawPlaneS a 3 m else false)

/-- The mask byte the accumulation pass reads for channel `c`:
`mask[(c+3)*msize + cell]`.  For `c = 3` the source would index plane 6,
beyond the six-plane block, but that read is unreachable: the guard
`inval < clips[3] = 0` is checked first and never holds since
`inval = fmaxf(0, ...) >= 0`.  The model returns false there. -/
def srawAccumMask (a : SrawIn) (c : Fin 4) : ℤ → Bool :=
  if hc : (c : ℕ) < 3 then postPlaneS a ⟨c, hc⟩ else fun _ => false

/-- One step of the chrominance accumulation of the sraw variant,
processing photosite `p`: the `for_each_channel` loop over the four
channels, accumulating a channel iff `inval > clipdark[c]`,
`inval < clips[c]` and the mask byte of plane `c+3` is set at the coarse
cell of `p`. -/
def srawAccumStep (a : SrawIn) (s : (Fin 4 → ℚ) × (Fin 4 → ℕ)) (p : ℕ × ℕ) :
    (Fin 4 → ℚ) × (Fin 4 → ℕ) :=
  (List.finRange 4).foldl (fun s2 c =>
    let idx := (p.1 * a.w + p.2) * 4
    let inval : ℚ := max 0 (a.input (idx + (c : ℕ)))
    if (decide (dark4 a c < inval) && decide (inval < clips4 a c) &&
        srawAccumMask a c ((raw_to_cmap (a.w/3) p.1 p.2 : ℤ))) = true
    then (Function.update s2.1 c
            (s2.1 c + (inval - calc_linear_refavg a.pw a.hlp (a.input idx)
                                 (a.input (idx+1)) (a.input (idx+2)) c)),
          Function.update s2.2 c (s2.2 c + 1))
    else s2) s

/-- The chrominance estimate of the sraw variant. -/
def srawEstim (a : SrawIn) : Fin 4 → ℚ :=
  let r := (interiorList a.w a.h).foldl (srawAccumStep a) (fun _ => 0, fun _ => 0)
  fun c => r.1 c / max 1 ((r.2 c : ℚ))

/-- Whether the estimation block of the sraw variant runs. -/
def runEstimS (a : SrawIn) : Bool := !feq a.magic a.storedTag && a.quality && a.allocOk

/-- The 4-wide chrominance the sraw reconstruction uses; the initializer
is the stored triple with a 0 fourth component. -/
def chrom4S (a : SrawIn) : Fin 4 → ℚ :=
  if runEstimS a then
    (if anyclippedS a then srawEstim a else ![a.stored 0, a.stored 1, a.stored 2, 0])
  else ![a.stored 0, a.stored 1, a.stored 2, 0]

/-- The sraw publication size test:
`abs((int)(roi_out->width / roi_out->scale) - piece->buf_in.width) < 10`
and the same for the height. -/
def dimsOkS (a : SrawIn) : Bool :=
  decide (|ratTrunc ((a.ow : ℚ) / a.scale) - a.bufW| < 10) &&
  decide (|ratTrunc ((a.oh : ℚ) / a.scale) - a.bufH| < 10)

/-- Whether the sraw publication block runs. -/
def publishedS (a : SrawIn) : Bool :=
  runEstimS a && a.pipeFull && dimsOkS a && a.altered

/-- The chrominance state after the sraw call. -/
def stateS (a : SrawIn) : ChromState :=
  if publishedS a then ⟨fun j => chrom4S a (embed3 j), a.magic⟩
  else ⟨a.stored, a.storedTag⟩

/-- The body of the output loop of `_process_linear_opposed` at output
photosite (row, col), channel `c`: the source reads the input at
`(MIN(row, height-1), MIN(col, width-1))` — no roi_out offset, no
zero-fill — and reconstructs any channel whose clamped value reaches its
clip. -/
def srawOut (a : SrawIn) (chrom : Fin 4 → ℚ) (row col : ℕ) (c : Fin 4) : ℚ :=
  let inrow := min row (a.h - 1)
  let incol := min col (a.w - 1)
  let idx := (inrow * a.w + incol) * 4
  let ref := calc_linear_refavg a.pw a.hlp (a.input idx) (a.input (idx+1)) (a.input (idx+2)) c
  let inval : ℚ := max 0 (a.input (idx + (c : ℕ)))
  if clips4 a c ≤ inval then max inval (ref + chrom c) else inval

/-- Everything `_process_linear_opposed` produces. -/
structure SrawResult where
  out : ℕ → ℕ → Fin 4 → ℚ
  chromaUsed : Fin 4 → ℚ
  stateOut : ChromState
  published : Bool
  ranPasses : Bool

/-- `_process_linear_opposed` from the source, assembled from the passes
above. -/
def process_linear_opposed (a : SrawIn) : SrawResult :=
  ⟨fun row col c => srawOut a (chrom4S a) row col c, chrom4S a, stateS a,
   publishedS a, runEstimS a⟩

/-- Mosaic inputs with the output region reset to the full input region. -/
def identityRoiM (a : MosaicIn) : MosaicIn :=
  { a with ow := a.w, oh := a.h, ox := 0, oy := 0 }

/-- Sraw inputs with the output region reset to the full input region. -/
def identityRoiS (a : SrawIn) : SrawIn :=
  { a with ow := a.w, oh := a.h, ox := 0, oy := 0 }

/-! ### Concrete instantiations used to evaluate the model

The parameters that stand for code outside the provided sources are
instantiated with simple concrete functions: an all-red sensor pattern,
a zero reference average and the identity in place of `powf`. -/

/-- A constant sensor pattern: every photosite carries primary 0. -/
def fc0 : ℕ → ℕ → Fin 3 := fun _ _ => 0

/-- A zero reference average. -/
def rz : ℕ → Fin 3 → ℚ := fun _ _ => 0

/-- The identity in place of `powf`. -/
def pwId : ℚ → ℚ → ℚ := fun x _ => x

/-- A 3x3 mosaic frame with identity region, matching tag (no estimation)
and quality off. -/
def exSmall : MosaicIn :=
  ⟨3, 3, 3, 3, 0, 0, fun _ => 1/5, fc0, rz, 1, false, fun _ => 1, 0,
   fun _ => 0, 0, false, false, false, false, false⟩

/-- A 3x3 mosaic frame whose centre photosite holds the negative value -1;
thresholds are positive and the tag matches. -/
def exB : MosaicIn :=
  ⟨3, 3, 3, 3, 0, 0, (fun i => if i = 4 then -1 else 0), fc0, rz, 1, false,
   fun _ => 1, 0, fun _ => 0, 0, false, false, false, false, false⟩

/-- A 3x3 mosaic frame with a negative centre photosite, zero clipping
thresholds (`d->clip = 0`) and a stored chrominance of 1 per primary. -/
def exB2 : MosaicIn :=
  ⟨3, 3, 3, 3, 0, 0, (fun i => if i = 4 then -1 else 0), fc0, rz, 0, false,
   fun _ => 1, 0, fun _ => 1, 0, false, false, false, false, false⟩

/-- A 21x21 mosaic frame whose photosite (1, 1) is clipped, so the raw
mask of primary 0 is set at the coarse corner cell (0, 0). -/
def exC : MosaicIn :=
  ⟨21, 21, 21, 21, 0, 0, (fun i => if i = 22 then 1 else 0), fc0, rz, 1,
   false, fun _ => 1, 0, fun _ => 0, 0, true, true, false, false, false⟩

/-- A 21x21 mosaic frame whose photosite (10, 10) is clipped, so the raw
mask of primary 0 is set at the interior coarse cell (3, 3). -/
def exC3w : MosaicIn :=
  ⟨21, 21, 21, 21, 0, 0, (fun i => if i = 220 then 1 else 0), fc0, rz, 1,
   false, fun _ => 1, 0, fun _ => 0, 0, true, true, false, false, false⟩

/-- A 21x21 mosaic frame whose photosite (4, 4) is clipped, so the raw
mask of primary 0 is set at the edge coarse cell (1, 1). -/
def exC7 : MosaicIn :=
  ⟨21, 21, 21, 21, 0, 0, (fun i => if i = 88 then 1 else 0), fc0, rz, 1,
   false, fun _ => 1, 0, fun _ => 0, 0, true, true, false, false, false⟩

/-- A 3x3 mosaic frame with a cropped 2x2 output region at offset (1, 1). -/
def exW4 : MosaicIn :=
  ⟨3, 3, 2, 2, 1, 1, fun _ => 1/5, fc0, rz, 1, false, fun _ => 1, 0,
   fun _ => 0, 0, false, false, false, false, false⟩

/-- A degenerate 2x2 mosaic frame with a differing tag, quality on,
allocation succeeding, full pipe and altered image. -/
def exG : MosaicIn :=
  ⟨2, 2, 2, 2, 0, 0, fun _ => 1/5, fc0, rz, 1, false, fun _ => 1, 1,
   fun _ => 0, 0, true, true, false, true, true⟩

/-- A 21x3 mosaic frame (coarse grid 7x1) whose photosite (1, 1) is
clipped, with a differing tag and quality on: the dilation loop bound
`mheight - 3` wraps for it. -/
def exH : MosaicIn :=
  ⟨21, 3, 21, 3, 0, 0, (fun i => if i = 22 then 1 else 0), fc0, rz, 1,
   false, fun _ => 1, 1, fun _ => 0, 0, true, true, false, false, false⟩

/-- A 2x2 sraw frame with a cropped 1x1 output region at offset (1, 1);
photosite (1, 1) carries 5 on channel 0, everything else is 0, and the
thresholds are far above all values. -/
def exA : SrawIn :=
  ⟨2, 2, 1, 1, 1, 1, 1, 2, 2, (fun i => if i = 12 then 5 else 0), pwId, 3,
   100, false, fun _ => 1, 0, fun _ => 0, 0, false, false, false, false⟩

/-- A 2x2 sraw frame with a cropped 1x1 output region at offset (1, 1)
and distinguishable unclipped photosites: channels of photosite (0, 0)
hold 1/10, photosite (1, 1) holds 2/10. -/
def exD : SrawIn :=
  ⟨2, 2, 1, 1, 1, 1, 1, 2, 2,
   (fun i => if i < 4 then 1/10 else if 12 ≤ i then 2/10 else 3/100), pwId,
   3, 1, false, fun _ => 1, 0, fun _ => 0, 0, false, false, false, false⟩

/-- A 9x9 sraw frame (coarse grid 3x3, no dilation-interior cells): every
photosite holds (2/10, 1/10, 1/10, 0), the tag differs and quality is on,
so the estimation passes run. -/
def exE : SrawIn :=
  ⟨9, 9, 9, 9, 0, 0, 1, 9, 9,
   (fun i => if i % 4 = 0 then 2/10 else if i % 4 = 3 then 0 else 1/10),
   pwId, 3, 1, false, fun _ => 1, 1, fun _ => 0, 0, true, true, false, false⟩

/-! ### General lemmas about the passes -/

theorem mem_interiorList {w h : ℕ} {p : ℕ × ℕ} :
    p ∈ interiorList w h ↔ 1 ≤ p.1 ∧ p.1 + 1 < h ∧ 1 ≤ p.2 ∧ p.2 + 1 < w := by
  cases p with
  | mk r c =>
    simp only [interiorList, List.mem_flatMap, List.mem_map, List.mem_range'_1, Prod.mk.injEq]
    constructor
    · rintro ⟨r', ⟨hr1, hr2⟩, c', ⟨hc1, hc2⟩, h1, h2⟩
      subst h1; subst h2; omega
    · rintro ⟨h1, h2, h3, h4⟩
      exact ⟨r, ⟨h1, by omega⟩, c, ⟨h3, by omega⟩, rfl, rfl⟩

theorem anyclippedM_small (a : MosaicIn) (hsm : a.w < 3 ∨ a.h < 3) :
    anyclippedM a = false := by
  rw [anyclippedM, List.any_eq_false]
  intro p hp
  have := mem_interiorList.mp hp
  omega

theorem flat_div {w r c : ℕ} (hc : c < w) : (r * w + c) / w = r := by
  rw [show r * w + c = w * r + c by ring, Nat.mul_add_div (by omega), Nat.div_eq_of_lt hc,
    Nat.add_zero]

theorem flat_mod {w r c : ℕ} (hc : c < w) : (r * w + c) % w = c := by
  rw [show r * w + c = w * r + c by ring, Nat.mul_add_mod, Nat.mod_eq_of_lt hc]

theorem dilatePass_interior (p : ℤ → Bool) (mw mh r c : ℕ) (h1 : 3 ≤ r) (h2 : r + 3 < mh)
    (h3 : 3 ≤ c) (h4 : c + 3 < mw) :
    dilatePass p mw mh ((r * mw + c : ℕ) : ℤ) =
      mask_dilated (fun d => p (((r * mw + c : ℕ) : ℤ) + d)) (mw : ℤ) := by
  have hc : c < mw := by omega
  rw [dilatePass, if_pos]
  refine ⟨Int.natCast_nonneg _, ?_, ?_, ?_, ?_⟩ <;>
    rw [Int.toNat_natCast] <;>
    first
      | (rw [flat_div hc]; omega)
      | (rw [flat_mod hc]; omega)

theorem dilatePass_edge (p : ℤ → Bool) (mw mh r c : ℕ) (hc : c < mw)
    (hedge : ¬(3 ≤ r ∧ r + 3 < mh ∧ 3 ≤ c ∧ c + 3 < mw)) :
    dilatePass p mw mh ((r * mw + c : ℕ) : ℤ) = false := by
  rw [dilatePass, if_neg]
  rintro ⟨h0, ha, hb, hcc, hd⟩
  rw [Int.toNat_natCast, flat_div hc] at ha hb
  rw [Int.toNat_natCast, flat_mod hc] at hcc hd
  exact hedge ⟨ha, hb, hcc, hd⟩

theorem mask_dilated_eq_any (inp : ℤ → Bool) (w1 : ℤ) :
    mask_dilated inp w1 = (inp 0 || (offList w1).any inp) := by
  simp only [mask_dilated, offList, List.any_cons, List.any_nil, Bool.or_false, Bool.or_assoc]

theorem offList_eq_map (w1 : ℤ) : offList w1 = fp44.map fun d => d.1 * w1 + d.2 := by
  simp [offList, fp44, List.cons.injEq]
  omega

theorem dilatePass_char (p : ℤ → Bool) (mw mh r c : ℕ) (h1 : 3 ≤ r) (h2 : r + 3 < mh)
    (h3 : 3 ≤ c) (h4 : c + 3 < mw) :
    (dilatePass p mw mh ((r * mw + c : ℕ) : ℤ) = true ↔
      p ((r * mw + c : ℕ) : ℤ) = true ∨
        ∃ d ∈ fp44, p (((r : ℤ) + d.1) * (mw : ℤ) + ((c : ℤ) + d.2)) = true) := by
  have key : ∀ d : ℤ × ℤ, ((r * mw + c : ℕ) : ℤ) + (d.1 * (mw : ℤ) + d.2) =
      ((r : ℤ) + d.1) * (mw : ℤ) + ((c : ℤ) + d.2) := by
    intro d; push_cast; ring
  rw [dilatePass_interior p mw mh r c h1 h2 h3 h4, mask_dilated_eq_any, offList_eq_map]
  simp only [Bool.or_eq_true, add_zero, List.any_eq_true, List.mem_map]
  refine or_congr Iff.rfl ⟨?_, ?_⟩
  · rintro ⟨x, ⟨d, hd, rfl⟩, hx⟩
    exact ⟨d, hd, by rwa [key d] at hx⟩
  · rintro ⟨d, hd, hx⟩
    exact ⟨d.1 * (mw : ℤ) + d.2, ⟨d, hd, rfl⟩, by rwa [key d]⟩

theorem fp44_mem_iff (d : ℤ × ℤ) : d ∈ fp44 ↔ specFootprint d.1 d.2 := by
  cases d with
  | mk x y =>
    constructor
    · intro h
      fin_cases h <;> decide
    · intro h
      simp only at h
      have hx3 : |x| ≤ 3 := by
        rcases h with ⟨h1, -, -⟩ | ⟨h1, -, -, -⟩
        · exact le_trans h1 (by norm_num)
        · exact h1
      have hy3 : |y| ≤ 3 := by
        rcases h with ⟨-, h1, -⟩ | ⟨-, h1, -, -⟩
        · exact le_trans h1 (by norm_num)
        · exact h1
      obtain ⟨hx1, hx2⟩ := abs_le.mp hx3
      obtain ⟨hy1, hy2⟩ := abs_le.mp hy3
      interval_cases x <;> interval_cases y <;> revert h <;> decide

theorem embed3_val (c : Fin 3) : ((embed3 c : Fin 4) : ℕ) = (c : ℕ) := rfl

theorem tmpOptM_eq_none (a : MosaicIn) (hk : a.keep = false) : tmpOptM a = none := by
  simp [tmpOptM, hk]

theorem tmpOptM_eq_some (a : MosaicIn) (hk : a.keep = true) :
    tmpOptM a = some (tmpoutM a (chromUsedM a)) := by
  simp [tmpOptM, hk]

theorem tmpoutM_ge (a : MosaicIn) (chrom : Fin 3 → ℚ) (idx : ℕ) :
    a.input idx ≤ tmpoutM a chrom idx := by
  simp only [tmpoutM]
  split
  · exact le_trans (le_max_right 0 _) (le_max_left _ _)
  · exact le_max_right 0 _

theorem reconM_ge (a : MosaicIn) (chrom : Fin 3 → ℚ) (tmp : Option (ℕ → ℚ))
    (htmp : tmp = none ∨ tmp = some (tmpoutM a chrom)) (row col : ℕ)
    (h1 : row + a.oy < a.h) (h2 : col + a.ox < a.w) :
    a.input ((row + a.oy) * a.w + (col + a.ox)) ≤ reconM a chrom tmp row col := by
  simp only [reconM]
  rw [if_pos ⟨h1, h2⟩]
  rcases htmp with rfl | rfl
  · simp only [Option.elim]
    split
    · exact le_trans (le_max_right 0 _) (le_max_left _ _)
    · exact le_max_right 0 _
  · simp only [Option.elim]
    exact tmpoutM_ge a chrom _

/-- C1 (amended): in both variants and both keep and non-keep modes, the
value emitted at an output photosite is at least the input value at the
source photosite the code actually reads — for the mosaic variant the
photosite `(row + roi_out.y, col + roi_out.x)` whenever it lies inside
the input region, and for the sraw variant the clamped photosite
`(min row (H-1), min col (W-1))`; in particular a clipped photosite
inside the border is never reduced. -/
theorem C1_thm :
    (∀ (a : MosaicIn) (row col : ℕ), row < a.oh → col < a.ow →
       row + a.oy < a.h → col + a.ox < a.w →
       a.input ((row + a.oy) * a.w + (col + a.ox)) ≤ (process_opposed a).out row col)
    ∧ (∀ (a : SrawIn) (row col : ℕ) (c : Fin 3), row < a.oh → col < a.ow →
       a.input ((min row (a.h - 1) * a.w + min col (a.w - 1)) * 4 + (c : ℕ)) ≤
         (process_linear_opposed a).out row col (embed3 c)) := by
  constructor
  · intro a row col _ _ h1 h2
    refine reconM_ge a (chromUsedM a) (tmpOptM a) ?_ row col h1 h2
    unfold tmpOptM
    split
    · exact Or.inr rfl
    · exact Or.inl rfl
  · intro a row col c _ _
    show a.input _ ≤ srawOut a (chrom4S a) row col (embed3 c)
    simp only [srawOut, embed3_val]
    split
    · exact le_trans (le_max_right 0 _) (le_max_left _ _)
    · exact le_max_right 0 _

/-- C1 witness: the amended claim applied to the 3x3 frame `exSmall` at
output photosite (0, 0). -/
theorem C1_witness :
    (0 : ℕ) < exSmall.oh ∧ (0 : ℕ) < exSmall.ow ∧
    exSmall.input ((0 + exSmall.oy) * exSmall.w + (0 + exSmall.ox)) ≤
      (process_opposed exSmall).out 0 0 :=
  ⟨by decide, by decide,
   C1_thm.1 exSmall 0 0 (by decide) (by decide) (by decide) (by decide)⟩

/-- C1 counterexample: for the sraw variant the claim as stated is false.
At `exA` the output region is offset by (1, 1), so the claim maps output
photosite (0, 0) to input photosite (1, 1), whose channel 0 holds 5; the
code instead reads the clamped photosite (0, 0) and emits 0 < 5. -/
theorem C1_cex :
    ¬ (exA.input (((0 + exA.oy) * exA.w + (0 + exA.ox)) * 4 + ((0 : Fin 3) : ℕ)) ≤
       (process_linear_opposed exA).out 0 0 (embed3 0)) := by
  with_unfolding_all decide

/-- C2 (amended): a photosite strictly inside the input border whose
clamped value `max(0, in)` is below its primary clip threshold is emitted
as exactly `max(0, in)` by both variants; consequently every unclipped
photosite with non-negative input is bit-equal to its input.  (As stated
the claim fails for negative inputs, which are clamped, and — through the
unclamped reading of "value below the threshold" — for zero thresholds.) -/
theorem C2_thm :
    (∀ (a : MosaicIn) (row col : ℕ), row < a.oh → col < a.ow →
       0 < row + a.oy → 0 < col + a.ox → row + a.oy + 1 < a.h → col + a.ox + 1 < a.w →
       max 0 (a.input ((row + a.oy) * a.w + (col + a.ox))) <
         clipsM a (a.fc (row + a.oy) (col + a.ox)) →
       (process_opposed a).out row col = max 0 (a.input ((row + a.oy) * a.w + (col + a.ox)))
       ∧ (0 ≤ a.input ((row + a.oy) * a.w + (col + a.ox)) →
           (process_opposed a).out row col = a.input ((row + a.oy) * a.w + (col + a.ox))))
    ∧ (∀ (a : SrawIn) (row col : ℕ) (c : Fin 3),
       max 0 (a.input ((min row (a.h - 1) * a.w + min col (a.w - 1)) * 4 + (c : ℕ))) <
         clips4 a (embed3 c) →
       (process_linear_opposed a).out row col (embed3 c) =
         max 0 (a.input ((min row (a.h - 1) * a.w + min col (a.w - 1)) * 4 + (c : ℕ)))
       ∧ (0 ≤ a.input ((min row (a.h - 1) * a.w + min col (a.w - 1)) * 4 + (c : ℕ)) →
           (process_linear_opposed a).out row col (embed3 c) =
             a.input ((min row (a.h - 1) * a.w + min col (a.w - 1)) * 4 + (c : ℕ)))) := by
  constructor
  · intro a row col _ _ hr0 hc0 hr1 hc1 hclip
    have hin : row + a.oy < a.h ∧ col + a.ox < a.w := ⟨by omega, by omega⟩
    have hmain : (process_opposed a).out row col =
        max 0 (a.input ((row + a.oy) * a.w + (col + a.ox))) := by
      show reconM a (chromUsedM a) (tmpOptM a) row col = _
      cases hk : a.keep
      · rw [tmpOptM_eq_none a hk]
        simp only [reconM]
        rw [if_pos hin]
        simp only [Option.elim]
        rw [if_neg]
        rintro ⟨-, hcon⟩
        exact absurd hcon (not_le.mpr hclip)
      · rw [tmpOptM_eq_some a hk]
        simp only [reconM]
        rw [if_pos hin]
        simp only [Option.elim, tmpoutM]
        rw [flat_div hin.2, flat_mod hin.2]
        rw [if_neg]
        rintro ⟨hcon, -⟩
        exact absurd hcon (not_le.mpr hclip)
    exact ⟨hmain, fun h0 => by rw [hmain, max_eq_right h0]⟩
  · intro a row col c hclip
    have hmain : (process_linear_opposed a).out row col (embed3 c) =
        max 0 (a.input ((min row (a.h - 1) * a.w + min col (a.w - 1)) * 4 + (c : ℕ))) := by
      show srawOut a (chrom4S a) row col (embed3 c) = _
      simp only [srawOut, embed3_val]
      rw [if_neg (not_le.mpr hclip)]
    exact ⟨hmain, fun h0 => by rw [hmain, max_eq_right h0]⟩

/-- C2 witness: the amended claim applied to the unclipped centre
photosite of the 3x3 frame `exSmall`. -/
theorem C2_witness :
    max 0 (exSmall.input 4) < clipsM exSmall (exSmall.fc 1 1) ∧
    (process_opposed exSmall).out 1 1 = max 0 (exSmall.input 4) :=
  ⟨by with_unfolding_all decide,
   (C2_thm.1 exSmall 1 1 (by decide) (by decide) (by decide) (by decide) (by decide)
      (by decide) (by with_unfolding_all decide)).1⟩

/-- C2 counterexample: at `exB` the centre photosite holds -1, below its
clip threshold 0.987, yet the output 0 is not bit-equal to the input; at
`exB2` the thresholds are 0, the centre photosite holds -1 < 0, yet the
output is 1, not `max(0, in) = 0` (the stored chrominance is 1). -/
theorem C2_cex :
    (exB.input 4 < clipsM exB (exB.fc 1 1) ∧
      (process_opposed exB).out 1 1 ≠ exB.input 4) ∧
    (exB2.input 4 < clipsM exB2 (exB2.fc 1 1) ∧
      (process_opposed exB2).out 1 1 ≠ max 0 (exB2.input 4)) := by
  with_unfolding_all decide

/-- C3 (amended): at every coarse cell at least 3 cells away from each
coarse border, a set raw-mask cell forces the corresponding dilated-mask
cell of the same primary to be set; every other coarse cell of the
dilated planes holds 0 (the calloc value), not its raw value, so the
bitwise superset property holds exactly on the dilation-loop interior. -/
theorem C3_thm :
    (∀ (a : MosaicIn) (ch : Fin 3) (r c : ℕ),
       3 ≤ r → r + 3 < a.h/3 → 3 ≤ c → c + 3 < a.w/3 →
       rawPlaneM a ch ((r * (a.w/3) + c : ℕ) : ℤ) = true →
       dilatedPlaneM a ch ((r * (a.w/3) + c : ℕ) : ℤ) = true)
    ∧ (∀ (a : MosaicIn) (ch : Fin 3) (r c : ℕ), c < a.w/3 →
       ¬(3 ≤ r ∧ r + 3 < a.h/3 ∧ 3 ≤ c ∧ c + 3 < a.w/3) →
       dilatedPlaneM a ch ((r * (a.w/3) + c : ℕ) : ℤ) = false) := by
  constructor
  · intro a ch r c h1 h2 h3 h4 hraw
    show dilatePass (rawPlaneM a ch) (a.w/3) (a.h/3) _ = true
    rw [dilatePass_char (rawPlaneM a ch) (a.w/3) (a.h/3) r c h1 h2 h3 h4]
    exact Or.inl hraw
  · intro a ch r c hc hedge
    exact dilatePass_edge (rawPlaneM a ch) (a.w/3) (a.h/3) r c hc hedge

/-- C3 witness: the amended superset property applied to the interior
coarse cell (3, 3) of the 21x21 frame `exC3w`. -/
theorem C3_witness :
    rawPlaneM exC3w 0 ((3 * (exC3w.w/3) + 3 : ℕ) : ℤ) = true ∧
    dilatedPlaneM exC3w 0 ((3 * (exC3w.w/3) + 3 : ℕ) : ℤ) = true :=
  ⟨by with_unfolding_all decide,
   C3_thm.1 exC3w 0 3 3 (by decide) (by decide) (by decide) (by decide)
     (by with_unfolding_all decide)⟩

/-- C3 counterexample: at the 21x21 frame `exC` the raw mask of primary 0
is set at the boundary coarse cell (0, 0) but the dilated mask is 0 there,
so the dilated mask is not a bitwise superset of the raw mask on the
cells within 3 cells of the coarse boundary. -/
theorem C3_cex :
    rawPlaneM exC 0 0 = true ∧ dilatedPlaneM exC 0 0 = false := by
  with_unfolding_all decide

/-- C7 (amended): an interior dilated-mask cell is set iff the raw mask
of the same primary is set at the cell itself or at one of the 44
footprint offsets (the 8-neighborhood plus the radius-2/3 ring without
the four corners, exactly as the spec describes); but coarse cells within
3 cells of the coarse border hold 0 in the dilated planes, not their raw
value. -/
theorem C7_thm :
    (∀ (a : MosaicIn) (ch : Fin 3) (r c : ℕ),
       3 ≤ r → r + 3 < a.h/3 → 3 ≤ c → c + 3 < a.w/3 →
       (dilatedPlaneM a ch ((r * (a.w/3) + c : ℕ) : ℤ) = true ↔
         rawPlaneM a ch ((r * (a.w/3) + c : ℕ) : ℤ) = true ∨
           ∃ d ∈ fp44,
             rawPlaneM a ch (((r : ℤ) + d.1) * ((a.w/3 : ℕ) : ℤ) + ((c : ℤ) + d.2)) = true))
    ∧ (∀ d : ℤ × ℤ, d ∈ fp44 ↔ specFootprint d.1 d.2)
    ∧ (∀ (a : MosaicIn) (ch : Fin 3) (r c : ℕ), c < a.w/3 →
       ¬(3 ≤ r ∧ r + 3 < a.h/3 ∧ 3 ≤ c ∧ c + 3 < a.w/3) →
       dilatedPlaneM a ch ((r * (a.w/3) + c : ℕ) : ℤ) = false) := by
  refine ⟨?_, fp44_mem_iff, ?_⟩
  · intro a ch r c h1 h2 h3 h4
    exact dilatePass_char (rawPlaneM a ch) (a.w/3) (a.h/3) r c h1 h2 h3 h4
  · intro a ch r c hc hedge
    exact dilatePass_edge (rawPlaneM a ch) (a.w/3) (a.h/3) r c hc hedge

/-- C7 witness: the footprint characterization applied to the interior
coarse cell (3, 3) of the 21x21 frame `exC3w`, whose raw mask is set at
the cell itself. -/
theorem C7_witness :
    (3 : ℕ) + 3 < exC3w.h/3 ∧
    dilatedPlaneM exC3w 0 ((3 * (exC3w.w/3) + 3 : ℕ) : ℤ) = true :=
  ⟨by decide,
   (C7_thm.1 exC3w 0 3 3 (by decide) (by decide) (by decide) (by decide)).mpr
     (Or.inl (by with_unfolding_all decide))⟩

/-- C7 counterexample: at the 21x21 frame `exC7` the raw mask of primary
0 is set at the edge coarse cell (1, 1) (flat index 8) but the dilated
plane holds 0 there: edge cells do not retain their raw values. -/
theorem C7_cex :
    rawPlaneM exC7 0 8 = true ∧ dilatedPlaneM exC7 0 8 = false := by
  with_unfolding_all decide

theorem idM_w (a : MosaicIn) : (identityRoiM a).w = a.w := rfl

theorem idM_h (a : MosaicIn) : (identityRoiM a).h = a.h := rfl

theorem idM_ox (a : MosaicIn) : (identityRoiM a).ox = 0 := rfl

theorem idM_oy (a : MosaicIn) : (identityRoiM a).oy = 0 := rfl

theorem idM_input (a : MosaicIn) : (identityRoiM a).input = a.input := rfl

theorem idM_fc (a : MosaicIn) : (identityRoiM a).fc = a.fc := rfl

theorem idM_refavg (a : MosaicIn) : (identityRoiM a).refavg = a.refavg := rfl

theorem idM_clips (a : MosaicIn) : clipsM (identityRoiM a) = clipsM a := rfl

theorem idS_w (a : SrawIn) : (identityRoiS a).w = a.w := rfl

theorem idS_h (a : SrawIn) : (identityRoiS a).h = a.h := rfl

theorem idS_input (a : SrawIn) : (identityRoiS a).input = a.input := rfl

theorem idS_pw (a : SrawIn) : (identityRoiS a).pw = a.pw := rfl

theorem idS_hlp (a : SrawIn) : (identityRoiS a).hlp = a.hlp := rfl

theorem idS_clips4 (a : SrawIn) : clips4 (identityRoiS a) = clips4 a := rfl

/-- C4 (amended): the mosaic variant maps output photosite (row, col) to
input photosite `(row + roi_out.y, col + roi_out.x)` and emits zero when
that photosite lies outside the input region, so a cropped output equals
the uncropped reconstruction shifted by the offset; the sraw variant
instead reads the clamped photosite `(min row (H-1), min col (W-1))`,
ignoring the output offset and never zero-filling. -/
theorem C4_thm :
    (∀ (a : MosaicIn) (row col : ℕ), row < a.oh → col < a.ow →
       (row + a.oy < a.h ∧ col + a.ox < a.w →
          (process_opposed a).out row col =
            (process_opposed (identityRoiM a)).out (row + a.oy) (col + a.ox))
       ∧ (¬(row + a.oy < a.h ∧ col + a.ox < a.w) →
          (process_opposed a).out row col = 0))
    ∧ (∀ (a : SrawIn) (row col : ℕ) (c : Fin 4),
       (process_linear_opposed a).out row col c =
         (process_linear_opposed (identityRoiS a)).out
           (min row (a.h - 1)) (min col (a.w - 1)) c) := by
  constructor
  · intro a row col _ _
    constructor
    · intro hin
      show reconM a (chromUsedM a) (tmpOptM a) row col =
        reconM (identityRoiM a) (chromUsedM (identityRoiM a)) (tmpOptM (identityRoiM a))
          (row + a.oy) (col + a.ox)
      have e1 : chromUsedM (identityRoiM a) = chromUsedM a := rfl
      have e2 : tmpOptM (identityRoiM a) = tmpOptM a := rfl
      rw [e1, e2]
      simp only [reconM, idM_w, idM_h, idM_ox, idM_oy, idM_input, idM_fc, idM_refavg,
        idM_clips, add_zero]
    · intro hout
      show reconM a (chromUsedM a) (tmpOptM a) row col = 0
      simp only [reconM]
      rw [if_neg hout]
  · intro a row col c
    show srawOut a (chrom4S a) row col c =
      srawOut (identityRoiS a) (chrom4S (identityRoiS a))
        (min row (a.h - 1)) (min col (a.w - 1)) c
    have e1 : chrom4S (identityRoiS a) = chrom4S a := rfl
    rw [e1]
    simp only [srawOut, idS_w, idS_h, idS_input, idS_pw, idS_hlp, idS_clips4]
    rw [min_assoc, min_self, min_assoc, min_self]

/-- C4 witness: the amended mosaic mapping applied to `exW4`, whose 2x2
output region is offset by (1, 1) inside its 3x3 input region. -/
theorem C4_witness :
    ((0 : ℕ) + exW4.oy < exW4.h ∧ (0 : ℕ) + exW4.ox < exW4.w) ∧
    (process_opposed exW4).out 0 0 =
      (process_opposed (identityRoiM exW4)).out (0 + exW4.oy) (0 + exW4.ox) :=
  ⟨⟨by decide, by decide⟩,
   (C4_thm.1 exW4 0 0 (by decide) (by decide)).1 ⟨by decide, by decide⟩⟩

/-- C4 counterexample: at the sraw frame `exD` the output region is
offset by (1, 1); the claim says output (0, 0) equals the uncropped
reconstruction at (1, 1), which is 2/10, but the code emits the value of
the clamped photosite (0, 0), which is 1/10. -/
theorem C4_cex :
    (process_linear_opposed exD).out 0 0 0 = 1/10 ∧
    (process_linear_opposed (identityRoiS exD)).out (0 + exD.oy) (0 + exD.ox) 0 = 2/10 ∧
    (1/10 : ℚ) ≠ 2/10 := by
  with_unfolding_all decide

/-- C5 (code bug, sraw variant): at `exE` the estimation passes run
(differing tag, quality on, `anyclipped` true because every photosite's
4th channel satisfies `input >= clips[3] = 0`), the dilated mask of
primary 0 is 0 at every coarse cell (the coarse grid is 3x3, so the
dilation loop writes nothing), yet the red chrominance comes out 1/10
instead of the 0 the claim's inclusion rule demands: the accumulator
reads mask plane 3, which the 4-channel build loop has polluted at the
coarse cell of every interior photosite. -/
theorem C5_thm :
    (process_linear_opposed exE).ranPasses = true ∧
    anyclippedS exE = true ∧
    (∀ m : ℤ, dilatePass (rawPlaneS exE 0) 3 3 m = false) ∧
    rawPlaneS exE 3 ((raw_to_cmap 3 1 1 : ℕ) : ℤ) = true ∧
    (process_linear_opposed exE).chromaUsed 0 = 1/10 := by
  refine ⟨?_, ?_, ?_, ?_, ?_⟩
  · with_unfolding_all decide
  · with_unfolding_all decide
  · intro m
    rw [dilatePass, if_neg]
    rintro ⟨-, -, h2, -, -⟩
    omega
  · with_unfolding_all decide
  · set_option maxRecDepth 400000 in with_unfolding_all decide

/-- C6 (confirmed): whenever estimation does not run — the recomputed tag
matches the stored tag, quality is off, or the scratch-mask allocation
fails — both variants skip all estimation passes, reconstruct with the
stored chrominance triple verbatim, record nothing new into the
chrominance state, and publish nothing. -/
theorem C6_thm :
    (∀ a : MosaicIn,
       feq a.magic a.storedTag = true ∨ a.quality = false ∨ a.allocOk = false →
       (process_opposed a).ranPasses = false ∧
       (process_opposed a).chromaUsed = a.stored ∧
       (process_opposed a).stateOut = ⟨a.stored, a.storedTag⟩ ∧
       (process_opposed a).published = false)
    ∧ (∀ a : SrawIn,
       feq a.magic a.storedTag = true ∨ a.quality = false ∨ a.allocOk = false →
       (process_linear_opposed a).ranPasses = false ∧
       (process_linear_opposed a).chromaUsed = ![a.stored 0, a.stored 1, a.stored 2, 0] ∧
       (process_linear_opposed a).stateOut = ⟨a.stored, a.storedTag⟩ ∧
       (process_linear_opposed a).published = false) := by
  constructor
  · intro a hskip
    have hrun : runEstimM a = false := by
      rcases hskip with h | h | h <;> simp [runEstimM, h]
    refine ⟨hrun, ?_, ?_, ?_⟩
    · show chromUsedM a = a.stored
      simp [chromUsedM, hrun]
    · show stateM a = ⟨a.stored, a.storedTag⟩
      simp [stateM, publishedM, hrun]
    · show publishedM a = false
      simp [publishedM, hrun]
  · intro a hskip
    have hrun : runEstimS a = false := by
      rcases hskip with h | h | h <;> simp [runEstimS, h]
    refine ⟨hrun, ?_, ?_, ?_⟩
    · show chrom4S a = ![a.stored 0, a.stored 1, a.stored 2, 0]
      simp [chrom4S, hrun]
    · show stateS a = ⟨a.stored, a.storedTag⟩
      simp [stateS, publishedS, hrun]
    · show publishedS a = false
      simp [publishedS, hrun]

/-- C6 witness: the skip behavior applied to `exSmall`, whose quality
flag is off. -/
theorem C6_witness :
    exSmall.quality = false ∧ (process_opposed exSmall).chromaUsed = exSmall.stored :=
  ⟨rfl, (C6_thm.1 exSmall (Or.inr (Or.inl rfl))).2.1⟩

/-- C8 (confirmed): the chrominance state and the caller's parameter sink
are written exactly when the estimation block ran and the frame is the
full pipeline and the image is flagged edited — with, in the sraw variant
only, the additional requirement that the inversely scaled output
dimensions match the source image to within 10 photosites; and whenever
publication does not happen the state keeps its entry value. -/
theorem C8_thm :
    (∀ a : MosaicIn,
       ((process_opposed a).published = true ↔
         (process_opposed a).ranPasses = true ∧ a.pipeFull = true ∧ a.altered = true) ∧
       ((process_opposed a).published = true →
         (process_opposed a).stateOut = ⟨(process_opposed a).chromaUsed, a.magic⟩) ∧
       ((process_opposed a).published = false →
         (process_opposed a).stateOut = ⟨a.stored, a.storedTag⟩))
    ∧ (∀ a : SrawIn,
       ((process_linear_opposed a).published = true ↔
         (process_linear_opposed a).ranPasses = true ∧ a.pipeFull = true ∧
           dimsOkS a = true ∧ a.altered = true) ∧
       ((process_linear_opposed a).published = true →
         (process_linear_opposed a).stateOut =
           ⟨fun j => (process_linear_opposed a).chromaUsed (embed3 j), a.magic⟩) ∧
       ((process_linear_opposed a).published = false →
         (process_linear_opposed a).stateOut = ⟨a.stored, a.storedTag⟩)) := by
  constructor
  · intro a
    refine ⟨?_, ?_, ?_⟩
    · show publishedM a = true ↔ runEstimM a = true ∧ a.pipeFull = true ∧ a.altered = true
      simp [publishedM, Bool.and_eq_true, and_assoc]
    · intro hpub
      have hp : publishedM a = true := hpub
      show stateM a = _
      unfold stateM
      rw [if_pos hp]
      rfl
    · intro hpub
      have hp : publishedM a = false := hpub
      show stateM a = _
      simp [stateM, hp]
  · intro a
    refine ⟨?_, ?_, ?_⟩
    · show publishedS a = true ↔
        runEstimS a = true ∧ a.pipeFull = true ∧ dimsOkS a = true ∧ a.altered = true
      simp [publishedS, Bool.and_eq_true, and_assoc]
    · intro hpub
      have hp : publishedS a = true := hpub
      show stateS a = _
      unfold stateS
      rw [if_pos hp]
      rfl
    · intro hpub
      have hp : publishedS a = false := hpub
      show stateS a = _
      simp [stateS, hp]

/-- C8 witness: at `exSmall` the tag matches, so nothing is published and
the chrominance state is unchanged by the call. -/
theorem C8_witness :
    (process_opposed exSmall).published = false ∧
    (process_opposed exSmall).stateOut = ⟨exSmall.stored, exSmall.storedTag⟩ := by
  have h : (process_opposed exSmall).published = false := by with_unfolding_all decide
  exact ⟨h, (C8_thm.1 exSmall).2.2 h⟩

/-- C9 (amended): for frames with `W < 3` or `H < 3` (and at least one
photosite per axis) the mosaic core emits a pass-through copy — every
output photosite mapped inside the input region equals its clamped input,
the rest are zero — and the chrominance triple it uses and stores keeps
its entry values; but when the tag differs, quality is on, allocation
succeeds, the pipe is full and the image is flagged edited, the stored
tag is still replaced by the recomputed tag (the claim's "chrom_state
untouched" fails in exactly that case). -/
theorem C9_thm :
    ∀ a : MosaicIn, 1 ≤ a.w → 1 ≤ a.h → a.w < 3 ∨ a.h < 3 →
      (∀ row col : ℕ, row < a.oh → col < a.ow →
        (process_opposed a).out row col =
          if row + a.oy < a.h ∧ col + a.ox < a.w
          then max 0 (a.input ((row + a.oy) * a.w + (col + a.ox))) else 0) ∧
      (process_opposed a).chromaUsed = a.stored ∧
      (process_opposed a).stateOut.chroma = a.stored ∧
      ((process_opposed a).published = false →
        (process_opposed a).stateOut = ⟨a.stored, a.storedTag⟩) := by
  intro a hw hh hsm
  have hany : anyclippedM a = false := anyclippedM_small a hsm
  have hchrom : chromUsedM a = a.stored := by
    unfold chromUsedM
    rw [hany]
    cases runEstimM a <;> simp
  refine ⟨?_, hchrom, ?_, ?_⟩
  · intro row col _ _
    show reconM a (chromUsedM a) (tmpOptM a) row col = _
    by_cases hin : row + a.oy < a.h ∧ col + a.ox < a.w
    · rw [if_pos hin]
      cases hk : a.keep
      · rw [tmpOptM_eq_none a hk]
        simp only [reconM]
        rw [if_pos hin]
        simp only [Option.elim]
        rw [if_neg]
        rintro ⟨⟨h1, h2, h3, h4⟩, -⟩
        rcases hsm with hsm | hsm <;> omega
      · rw [tmpOptM_eq_some a hk]
        simp only [reconM]
        rw [if_pos hin]
        simp only [Option.elim, tmpoutM]
        rw [flat_div hin.2, flat_mod hin.2]
        rw [if_neg]
        rintro ⟨-, h1, h2, h3, h4⟩
        rcases hsm with hsm | hsm <;> omega
    · rw [if_neg hin]
      simp only [reconM]
      rw [if_neg hin]
  · show (stateM a).chroma = a.stored
    unfold stateM
    split <;> simp [hchrom]
  · intro hpub
    have hp : publishedM a = false := hpub
    show stateM a = _
    simp [stateM, hp]

/-- C9 witness: the pass-through and triple-preservation applied to the
2x2 frame `exG`. -/
theorem C9_witness :
    exG.w < 3 ∧ (process_opposed exG).chromaUsed = exG.stored :=
  ⟨by decide, (C9_thm exG (by decide) (by decide) (Or.inl (by decide))).2.1⟩

/-- C9 counterexample: at the 2x2 frame `exG` the tag differs, quality is
on, the allocation succeeds, the pipe is full and the image is altered,
so the call replaces the stored tag 0 by the recomputed tag 1 —
chrom_state is touched. -/
theorem C9_cex :
    exG.w < 3 ∧ (process_opposed exG).stateOut.tag = exG.magic ∧
    (process_opposed exG).stateOut.tag ≠ exG.storedTag := by
  with_unfolding_all decide

/-- C10 (code bug): for the 21x3 frame `exH` (coarse grid 7x1) the
dilation pass is reached (`anyclipped` is true), the claim's premise
`Mh = 1 <= 6` holds, but the size_t loop bound `mheight - 3` wraps to
2^64 - 2 instead of being empty, so rows up to 2^64 - 3 execute; already
at row 1000 the write offset `3*msize + row*mwidth + col` of the loop
body lies beyond the six-plane allocation of `6*msize` bytes. -/
theorem C10_thm :
    (3 : ℕ)/3 ≤ 6 ∧
    size_sub (3/3) 3 = 2^64 - 2 ∧
    3 < size_sub (3/3) 3 ∧
    ((3 : ℕ) ≤ 1000 ∧ 1000 < size_sub (3/3) 3) ∧
    6 * msizeOf 21 3 ≤ 3 * msizeOf 21 3 + (1000 * (21/3) + 3) ∧
    anyclippedM exH = true := by
  refine ⟨by decide, by decide, by decide, ⟨by decide, by decide⟩, by decide, ?_⟩
  with_unfolding_all decide

end Opposed
